import Mathlib

/-!
Verification development for the WordPress SEO optimizer (`main.py`).

The Python source is shallowly embedded: each method of
`WordPressSEOOptimizer` becomes a pure Lean function.  Network calls and
calls to the generative backend are modelled by explicit inputs: a
backend response is `Option String` (`none` = the call raised, which the
source catches), an HTTP status is a `Nat`, and the WordPress server is
a function from page numbers to responses.  Python strings are modelled
as Lean `String` (a list of characters); `str.lower` is modelled on the
ASCII range, matching the behaviour the source relies on.
-/

/-- Python truthiness of an optional string (`None` and `""` are falsy). -/
def pyTruthy : Option String → Bool
  | none => false
  | some s => s != ""

/-- Whitespace characters stripped by Python `str.strip()` (ASCII model). -/
def pyIsSpace (c : Char) : Bool :=
  c = ' ' || c = '\t' || c = '\n' || c = '\r' || c = '\x0b' || c = '\x0c'

/-- Python `str.strip()`: drop leading and trailing whitespace. -/
def pyStrip (s : String) : String :=
  ⟨((s.data.dropWhile pyIsSpace).reverse.dropWhile pyIsSpace).reverse⟩

/-- Python `str.lower()` on one character (ASCII model: `A`-`Z` map to `a`-`z`). -/
def pyCharLower (c : Char) : Char :=
  if 65 ≤ c.toNat ∧ c.toNat ≤ 90 then Char.ofNat (c.toNat + 32) else c

/-- Python `str.lower()` (ASCII model). -/
def pyLower (s : String) : String :=
  ⟨s.data.map pyCharLower⟩

/-- Containment of one character list in another, as Python `pat in l`. -/
def pyInL (pat : List Char) : List Char → Bool
  | [] => pat.isEmpty
  | c :: rest => pat.isPrefixOf (c :: rest) || pyInL pat rest

/-- Python `needle in hay` on strings (substring containment). -/
def pyIn (needle hay : String) : Bool :=
  pyInL needle.data hay.data

/-- An ASCII uppercase letter (`A`-`Z`), as Python `str.isupper` per character. -/
def pyIsUpper (c : Char) : Bool :=
  65 ≤ c.toNat && c.toNat ≤ 90

/-- The Rank Math metadata bag (`rank_math_data`), a JSON object modelled
as an association list of string keys and values; lookup takes the first
binding, as a parsed JSON object has no duplicate keys. -/
abbrev RMData := List (String × String)

/-- Key lookup in the metadata bag (Python `d[k]` / `d.get(k)`). -/
def RMData.get (d : RMData) (k : String) : Option String :=
  (d.find? (fun p => p.1 == k)).map (fun p => p.2)

/-- Key assignment in the metadata bag (Python `d[k] = v`): replace the
value of the existing binding, else append a new binding. -/
def RMData.set : RMData → String → String → RMData
  | [], k, v => [(k, v)]
  | p :: rest, k, v => if p.1 == k then (k, v) :: rest else p :: RMData.set rest k v

/-- `generate_meta_description` (main.py lines 76-113).  The argument is
the backend response text (`none` = the call raised).  The source strips
the response and truncates to 160 characters, replacing the tail with an
ellipsis when it truncates. -/
def generate_meta_description (backend : Option String) : Option String :=
  match backend with
  | none => none
  | some t =>
    let meta_description := pyStrip t
    if meta_description.length > 160 then
      some ⟨meta_description.data.take 157 ++ "...".data⟩
    else
      some meta_description

/-- `generate_keyword` (main.py lines 115-147).  The argument is the
backend response text (`none` = the call raised).  The source strips the
response and, when it contains a colon, keeps the part after the first
colon (`keyword.split(":", 1)[1].strip()`). -/
def generate_keyword (backend : Option String) : Option String :=
  match backend with
  | none => none
  | some t =>
    let keyword := pyStrip t
    if pyIn ":" keyword then
      some (pyStrip ⟨(keyword.data.dropWhile (fun c => c ≠ ':')).drop 1⟩)
    else
      some keyword

/-- `update_post_title` (main.py lines 149-177).  Returns the resulting
title together with whether the backend was called.  The source returns
the title unchanged when the keyword is already present case-insensitively,
when the backend raises, or when the keyword is still absent from the
stripped backend response; otherwise it returns the stripped response. -/
def update_post_title (title keyword : String) (backend : Option String) :
    String × Bool :=
  if pyIn (pyLower keyword) (pyLower title) then
    (title, false)
  else
    match backend with
    | none => (title, true)
    | some resp =>
      let new_title := pyStrip resp
      if !(pyIn (pyLower keyword) (pyLower new_title)) then
        (title, true)
      else
        (new_title, true)

/-- First occurrence of `pat` in a character list: `some (pre, post)`
with the list equal to `pre ++ pat ++ post`, at the leftmost occurrence
(the semantics of `re.search` for a literal pattern). -/
def splitFirst (pat : List Char) : List Char → Option (List Char × List Char)
  | [] => if pat.isPrefixOf ([] : List Char) then some ([], []) else none
  | c :: rest =>
    if pat.isPrefixOf (c :: rest) then some ([], (c :: rest).drop pat.length)
    else
      match splitFirst pat rest with
      | some (pre, post) => some (c :: pre, post)
      | none => none

/-- Group 1 of the first match of `<p>(.*?)</p>` (with `re.DOTALL`): the
text between the first `<p>` and the first `</p>` after it.  `none` when
the pattern has no match. -/
def findFirstPara (content : List Char) : Option (List Char) :=
  match splitFirst "<p>".data content with
  | none => none
  | some (_, afterOpen) =>
    match splitFirst "</p>".data afterOpen with
    | none => none
    | some (para, _) => some para

/-- One left-to-right pass of `re.sub(r'<[^>]+>', '', s)`.  The first
argument holds the (reversed) characters seen since an as-yet-unclosed
`<`, or `none` outside a candidate tag.  A `>` closing a non-empty
bracket removes the whole `<...>` block; `<>` is kept (the class `[^>]+`
needs at least one character); a `<` never followed by `>` is kept
verbatim, as the pattern cannot match at or after it. -/
def stripTagsGo : Option (List Char) → List Char → List Char
  | none, [] => []
  | none, c :: rest =>
    if c = '<' then stripTagsGo (some []) rest
    else c :: stripTagsGo none rest
  | some buf, [] => '<' :: buf.reverse
  | some buf, c :: rest =>
    if c = '>' then
      if buf.isEmpty then '<' :: '>' :: stripTagsGo none rest
      else stripTagsGo none rest
    else stripTagsGo (some (c :: buf)) rest

/-- `re.sub(r'<[^>]+>', '', s)`: remove every `<...>` block that has at
least one non-`>` character between the brackets. -/
def stripTags (l : List Char) : List Char := stripTagsGo none l

/-- Python `s.replace(old, new)` for a non-empty `old`: replace every
non-overlapping occurrence, scanning left to right. -/
def replaceAllNe (o : Char) (os new : List Char) : List Char → List Char
  | [] => []
  | c :: rest =>
    if (o :: os).isPrefixOf (c :: rest) then
      new ++ replaceAllNe o os new (rest.drop os.length)
    else
      c :: replaceAllNe o os new rest
termination_by l => l.length
decreasing_by
  all_goals simp_wf
  all_goals omega

/-- Python `s.replace(old, new)`.  When `old` is empty Python inserts
`new` before every character and at the end. -/
def replaceAll (old new l : List Char) : List Char :=
  match old with
  | [] => new ++ l.flatMap (fun c => c :: new)
  | o :: os => replaceAllNe o os new l

/-- `update_first_paragraph` (main.py lines 179-214).  The argument
`backend` is the generative backend response (`none` = the call raised).
The source finds the first `<p>...</p>` block, strips tags from it, and
returns the content unchanged when there is no block, when the keyword
already occurs case-insensitively in the stripped paragraph, or when the
backend raises; otherwise it substitutes the stripped backend response
for every occurrence of the paragraph text. -/
def update_first_paragraph (content keyword : String) (backend : Option String) :
    String :=
  match findFirstPara content.data with
  | none => content
  | some first_para =>
    let first_para_clean : String := ⟨stripTags first_para⟩
    if pyIn (pyLower keyword) (pyLower first_para_clean) then content
    else
      match backend with
      | none => content
      | some resp =>
        let new_para := pyStrip resp
        ⟨replaceAll first_para new_para.data content.data⟩

/-- The metadata payload assembled by `update_rank_math_keyword`
(main.py lines 246-267): the existing bag (or an empty one when the read
produced nothing) with `focus_keyword` set to the keyword. -/
def update_rank_math_keyword_payload (existing : Option RMData) (keyword : String) :
    RMData :=
  (existing.getD []).set "focus_keyword" keyword

/-- `update_rank_math_keyword` result (main.py lines 246-272): `true`
exactly when the metadata POST returned status 200; an exception during
the POST (`none`) yields `false`. -/
def update_rank_math_keyword (existing : Option RMData) (keyword : String)
    (postStatus : Option Nat) : Bool :=
  let _payload := update_rank_math_keyword_payload existing keyword
  match postStatus with
  | none => false
  | some s => s == 200

/-- `get_all_published_posts` (main.py lines 41-74), one recursive step
per requested page.  `server p` is the listing endpoint's response for
page `p`: `.error status` for a non-200 response, `.ok batch` for the
decoded page.  The source breaks on an error response, on an empty page,
and (after extending) on a page shorter than `per_page = 100`.  `fuel`
bounds the number of requests so the model is total; every theorem below
supplies enough fuel for the run to finish on its own. -/
def get_all_published_posts {α : Type} (server : Nat → Except Nat (List α)) :
    Nat → Nat → List α
  | 0, _ => []
  | fuel + 1, page =>
    match server page with
    | .error _ => []
    | .ok batch =>
      if batch.isEmpty then []
      else if batch.length < 100 then batch
      else batch ++ get_all_published_posts server fuel (page + 1)

/-- The whole pagination loop, starting at page 1 as the source does. -/
def fetchAllPublished {α : Type} (server : Nat → Except Nat (List α)) (fuel : Nat) :
    List α :=
  get_all_published_posts server fuel 1

/-- Concatenation of the batches of pages `start, ..., start + n - 1`,
used to state what the pagination loop accumulates. -/
def pagesConcat {α : Type} (server : Nat → Except Nat (List α)) :
    Nat → Nat → List α
  | _, 0 => []
  | start, n + 1 =>
    (match server start with | .ok b => b | .error _ => []) ++
      pagesConcat server (start + 1) n

/-- A WordPress post as consumed by `process_post` (main.py lines 274-279
and 297-300).  `yoastDesc` is `some v` exactly when `yoast_head_json` is
present and truthy and carries a `description` key with value `v`. -/
structure Post where
  id : Nat
  title_rendered : String
  content_rendered : String
  slug : String
  yoastDesc : Option String
deriving DecidableEq, Repr

/-- One line of the run log (`self.log`, main.py lines 36-39). -/
structure LogEntry where
  pid : Nat
  msg : String
deriving DecidableEq, Repr

/-- The per-post report entry (main.py lines 281-288). -/
structure ReportEntry where
  post_id : Nat
  post_slug : String
  original_title : String
  updated_title : Option String
  meta_description_added : Bool
  keyword_added : Bool
deriving DecidableEq, Repr

/-- The `update_data` payload assembled at main.py lines 358-379; a field
is `none` when the corresponding key is absent from the dict. -/
structure UpdateData where
  title : Option String
  content : Option String
  meta : Option RMData
deriving DecidableEq, Repr

/-- The empty `update_data` dict. -/
def UpdateData.empty : UpdateData := ⟨none, none, none⟩

/-- The behaviour of the external world during one `process_post` call.
Each field is the outcome of one network or backend interaction, in
program order.  `raiseAt` injects a Python exception at external-call
site `n` (sites are numbered in the order they occur in the source) to
model that any step of the body may raise; `none` means no step raises. -/
structure Env where
  raiseAt : Option Nat
  excMsg : String
  rmdRead : Option RMData
  kwBackend : Option String
  kwWriteRead : Option RMData
  kwWriteStatus : Option Nat
  descBackend : Option String
  titleBackend : Option String
  paraBackend : Option String
  postResult : Option Nat

/-- The mutable locals of `process_post` that flow between its phases. -/
structure PState where
  md : Option String
  mde : Bool
  kw : Option String
  kwe : Bool
  report : ReportEntry
  logs : List LogEntry
deriving Repr

/-- A Python exception escaping the body of `process_post`'s `try`,
carrying the report entry and log lines accumulated so far. -/
abbrev PErr := ReportEntry × List LogEntry × String

/-- Reading the existing SEO metadata (main.py lines 291-312): the Yoast
rendered description is consulted first; the Rank Math bag, when truthy,
may supply a description (only if none was found) and the focus keyword.
Returns (meta_description, meta_description_exists, keyword,
keyword_exists). -/
def readExistingMeta (yoastDesc : Option String) (rmd : Option RMData) :
    Option String × Bool × Option String × Bool :=
  let (md, mde) :=
    match yoastDesc with
    | some v => (some v, v != "")
    | none => ((none : Option String), false)
  match rmd with
  | some d =>
    if d.isEmpty then (md, mde, none, false)
    else
      let (md2, mde2) :=
        if !mde && (d.get "description").isSome then
          (some ((d.get "description").getD ""), ((d.get "description").getD "") != "")
        else (md, mde)
      let kwv := (d.get "focus_keyword").getD ""
      (md2, mde2, some kwv, kwv != "")
  | none => (md, mde, none, false)

/-- Keyword phase of `process_post` (main.py lines 314-328): when no
keyword exists, generate one and, when truthy, persist it through
`update_rank_math_keyword`; only a successful persist marks
`keyword_added` and `keyword_exists`. -/
def keyword_phase (post : Post) (env : Env) (s : PState) : Except PErr PState :=
  if s.kwe then .ok s
  else
    let logs := s.logs ++ [⟨post.id, "No keyword found, generating one..."⟩]
    if env.raiseAt = some 1 then .error (s.report, logs, env.excMsg)
    else
      let kw := generate_keyword env.kwBackend
      if pyTruthy kw then
        let logs := logs ++ [⟨post.id, "Generated keyword: " ++ kw.getD ""⟩]
        if env.raiseAt = some 2 then .error (s.report, logs, env.excMsg)
        else if update_rank_math_keyword env.kwWriteRead (kw.getD "") env.kwWriteStatus then
          .ok { s with kw := kw, kwe := true,
                       report := { s.report with keyword_added := true },
                       logs := logs ++ [⟨post.id, "Updated Rank Math keyword"⟩] }
        else
          .ok { s with kw := kw,
                       logs := logs ++ [⟨post.id, "Failed to update Rank Math keyword"⟩] }
      else .ok { s with kw := kw, logs := logs }

/-- Description phase of `process_post` (main.py lines 330-345): generate
a description when none exists; else, when a keyword exists and the raw
keyword is not contained in the lower-cased description, regenerate it.
In both branches the local `meta_description` is overwritten with the
generation result, and `meta_description_added` is set only when that
result is truthy. -/
def description_phase (post : Post) (env : Env) (s : PState) : Except PErr PState :=
  if !s.mde then
    let logs := s.logs ++ [⟨post.id, "No meta description found, generating one..."⟩]
    if env.raiseAt = some 3 then .error (s.report, logs, env.excMsg)
    else
      let md := generate_meta_description env.descBackend
      if pyTruthy md then
        .ok { s with md := md,
                     report := { s.report with meta_description_added := true },
                     logs := logs ++ [⟨post.id, "Generated meta description: " ++ md.getD ""⟩] }
      else .ok { s with md := md, logs := logs }
  else if s.kwe && !(pyIn (s.kw.getD "") (pyLower (s.md.getD ""))) then
    let logs := s.logs ++
      [⟨post.id, "Meta description exists but does not include keyword, regenerating..."⟩]
    if env.raiseAt = some 3 then .error (s.report, logs, env.excMsg)
    else
      let md := generate_meta_description env.descBackend
      if pyTruthy md then
        .ok { s with md := md,
                     report := { s.report with meta_description_added := true },
                     logs := logs ++ [⟨post.id, "Updated meta description: " ++ md.getD ""⟩] }
      else .ok { s with md := md, logs := logs }
  else .ok s

/-- Title phase of `process_post` (main.py lines 347-356): when a keyword
exists and is absent (case-insensitively) from the title, attempt a title
edit; record it only when the result differs from the original title. -/
def title_phase (post : Post) (env : Env) (s : PState) : Except PErr PState :=
  if s.kwe && !(pyIn (pyLower (s.kw.getD "")) (pyLower post.title_rendered)) then
    if env.raiseAt = some 4 then .error (s.report, s.logs, env.excMsg)
    else
      let new_title := (update_post_title post.title_rendered (s.kw.getD "") env.titleBackend).1
      if new_title ≠ post.title_rendered then
        .ok { s with report := { s.report with updated_title := some new_title },
                     logs := s.logs ++ [⟨post.id, "Updated title: " ++ new_title⟩] }
      else .ok s
  else .ok s

/-- The Rank Math bag used for the metadata write (main.py lines
373-374): the bag read at line 303 when truthy, else a fresh empty one. -/
def rmdBag : Option RMData → RMData
  | some d => if d.isEmpty then [] else d
  | none => []

/-- Payload assembly of `process_post` (main.py lines 358-379): the title
key when a truthy updated title was recorded; the content key when a
keyword exists, is absent from the body, and the first-paragraph edit
changed the content; the meta key whenever the local `meta_description`
is truthy, merging it into the (possibly empty) Rank Math bag. -/
def content_meta_phase (post : Post) (env : Env) (rmd : Option RMData) (s : PState) :
    Except PErr (PState × UpdateData) :=
  let ud0 : UpdateData :=
    if pyTruthy s.report.updated_title then ⟨s.report.updated_title, none, none⟩
    else UpdateData.empty
  if s.kwe && !(pyIn (pyLower (s.kw.getD "")) (pyLower post.content_rendered)) then
    if env.raiseAt = some 5 then .error (s.report, s.logs, env.excMsg)
    else
      let new_content := update_first_paragraph post.content_rendered (s.kw.getD "") env.paraBackend
      let (ud1, logs1) :=
        if new_content ≠ post.content_rendered then
          ({ ud0 with content := some new_content },
           s.logs ++ [⟨post.id, "Updated first paragraph to include keyword"⟩])
        else (ud0, s.logs)
      if pyTruthy s.md then
        .ok ({ s with logs := logs1 },
             { ud1 with meta := some ((rmdBag rmd).set "description" (s.md.getD "")) })
      else .ok ({ s with logs := logs1 }, ud1)
  else
    if pyTruthy s.md then
      .ok (s, { ud0 with meta := some ((rmdBag rmd).set "description" (s.md.getD "")) })
    else .ok (s, ud0)

/-- Submission of the update (main.py lines 381-395): a POST is issued
only for a non-empty payload; its failure or exception is logged by the
inner handler and never escapes. -/
def submit_phase (post : Post) (env : Env) (ud : UpdateData) (logs : List LogEntry) :
    List LogEntry :=
  if ud ≠ UpdateData.empty then
    match env.postResult with
    | none => logs ++ [⟨post.id, "Error updating post"⟩]
    | some s =>
      if s = 200 then logs ++ [⟨post.id, "Successfully updated post"⟩]
      else logs ++ [⟨post.id, "Failed to update post"⟩]
  else logs

/-- The body of `process_post`'s `try` block (main.py lines 290-398). -/
def process_post_body (post : Post) (env : Env) :
    Except PErr (ReportEntry × UpdateData × List LogEntry) :=
  let report0 : ReportEntry :=
    ⟨post.id, post.slug, post.title_rendered, none, false, false⟩
  if env.raiseAt = some 0 then .error (report0, [], env.excMsg)
  else
    let rmd := env.rmdRead
    let (md, mde, kw, kwe) := readExistingMeta post.yoastDesc rmd
    let s0 : PState := ⟨md, mde, kw, kwe, report0, []⟩
    match keyword_phase post env s0 with
    | .error e => .error e
    | .ok s1 =>
      match description_phase post env s1 with
      | .error e => .error e
      | .ok s2 =>
        match title_phase post env s2 with
        | .error e => .error e
        | .ok s3 =>
          match content_meta_phase post env rmd s3 with
          | .error e => .error e
          | .ok (s4, update_data) =>
            let logs := submit_phase post env update_data s4.logs
            .ok (s4.report, update_data, logs)

/-- `process_post` (main.py lines 274-403): the `try` body wrapped in the
catch-all handler, which logs the exception against the post id and
returns the report entry accumulated so far. -/
def process_post (post : Post) (env : Env) :
    ReportEntry × UpdateData × List LogEntry :=
  match process_post_body post env with
  | .ok r => r
  | .error (rep, logs, e) =>
    (rep, UpdateData.empty, logs ++ [⟨post.id, "Error processing post: " ++ e⟩])

/-- The per-post loop of `run` (main.py lines 439-443), collecting the
report entries returned by `process_post`. -/
def runAll (posts : List Post) (envf : Post → Env) : List ReportEntry :=
  posts.map (fun p => (process_post p (envf p)).1)

/-! ## Helper lemmas -/

/-- `List.isPrefixOf` on characters is prefix decomposition. -/
theorem isPrefixOf_iff_append (p l : List Char) :
    p.isPrefixOf l = true ↔ ∃ t, l = p ++ t := by
  rw [List.isPrefixOf_iff_prefix]
  constructor
  · rintro ⟨t, ht⟩
    exact ⟨t, ht.symm⟩
  · rintro ⟨t, ht⟩
    exact ⟨t, ht.symm⟩

theorem pyInL_iff (pat l : List Char) :
    pyInL pat l = true ↔ ∃ a b, l = a ++ (pat ++ b) := by
  induction l with
  | nil =>
    constructor
    · intro h
      have hp : pat = [] := by simpa [pyInL, List.isEmpty_iff] using h
      exact ⟨[], [], by simp [hp]⟩
    · rintro ⟨a, b, h⟩
      have h2 := h.symm
      simp only [List.append_eq_nil] at h2
      simp [pyInL, List.isEmpty_iff, h2.2.1]
  | cons c rest ih =>
    simp only [pyInL, Bool.or_eq_true, isPrefixOf_iff_append, ih]
    constructor
    · rintro (⟨t, ht⟩ | ⟨a, b, h⟩)
      · exact ⟨[], t, by simp [ht]⟩
      · exact ⟨c :: a, b, by simp [h]⟩
    · rintro ⟨a, b, h⟩
      cases a with
      | nil =>
        exact Or.inl ⟨b, by simpa using h⟩
      | cons a' as =>
        simp at h
        exact Or.inr ⟨as, b, h.2⟩

theorem pyIn_mem {needle hay : String} (h : pyIn needle hay = true) :
    ∀ c ∈ needle.data, c ∈ hay.data := by
  rw [pyIn, pyInL_iff] at h
  obtain ⟨a, b, hab⟩ := h
  intro c hc
  rw [hab]
  simp [hc]

theorem char_ofNat_toNat {n : Nat} (h : n.isValidChar) : (Char.ofNat n).toNat = n := by
  rw [Char.ofNat, dif_pos h]
  rfl

theorem pyCharLower_not_upper (c : Char) : pyIsUpper (pyCharLower c) = false := by
  unfold pyCharLower pyIsUpper
  split
  · rename_i h
    have hv : (c.toNat + 32).isValidChar := Or.inl (by omega)
    rw [char_ofNat_toNat hv]
    simp only [Bool.and_eq_false_imp, decide_eq_true_eq, decide_eq_false_iff_not]
    omega
  · rename_i h
    simp only [Bool.and_eq_false_imp, decide_eq_true_eq, decide_eq_false_iff_not]
    omega

theorem pyLower_no_upper (s : String) : ∀ c ∈ (pyLower s).data, pyIsUpper c = false := by
  intro c hc
  have : c ∈ s.data.map pyCharLower := hc
  simp only [List.mem_map] at this
  obtain ⟨d, _, rfl⟩ := this
  exact pyCharLower_not_upper d

theorem RMData.get_set_self (d : RMData) (k v : String) : (d.set k v).get k = some v := by
  induction d with
  | nil =>
    rw [RMData.set, RMData.get]
    rw [List.find?_cons_of_pos _ (by simp)]
    rfl
  | cons p rest ih =>
    by_cases h : p.1 = k
    · rw [RMData.set, if_pos (by simp [h])]
      rw [RMData.get, List.find?_cons_of_pos _ (by simp)]
      rfl
    · rw [RMData.set, if_neg (by simp [h])]
      rw [RMData.get, List.find?_cons_of_neg _ (by simp [h])]
      exact ih

theorem RMData.get_set_ne (d : RMData) (k k' v : String) (h : k' ≠ k) :
    (d.set k v).get k' = d.get k' := by
  induction d with
  | nil =>
    rw [RMData.set, RMData.get, RMData.get]
    rw [List.find?_cons_of_neg _ (by simp [Ne.symm h])]
  | cons p rest ih =>
    by_cases hp : p.1 = k
    · rw [RMData.set, if_pos (by simp [hp])]
      rw [RMData.get, RMData.get]
      rw [List.find?_cons_of_neg _ (by simp [Ne.symm h])]
      rw [List.find?_cons_of_neg _ (by simp [hp, Ne.symm h])]
    · rw [RMData.set, if_neg (by simp [hp])]
      by_cases hp' : p.1 = k'
      · rw [RMData.get, RMData.get]
        rw [List.find?_cons_of_pos _ (by simp [hp']), List.find?_cons_of_pos _ (by simp [hp'])]
      · rw [RMData.get, RMData.get]
        rw [List.find?_cons_of_neg _ (by simp [hp']), List.find?_cons_of_neg _ (by simp [hp'])]
        exact ih

/-! ## Generation client claims -/

/-- Containment of a one-character pattern is membership. -/
theorem pyInL_singleton (c : Char) (l : List Char) : pyInL [c] l = true ↔ c ∈ l := by
  rw [pyInL_iff]
  constructor
  · rintro ⟨a, b, rfl⟩
    simp
  · intro hm
    obtain ⟨s, t, rfl⟩ := List.append_of_mem hm
    exact ⟨s, t, by simp⟩

theorem dropWhile_ne_colon (a b : List Char) (h : (':' : Char) ∉ a) :
    (a ++ ':' :: b).dropWhile (fun x => x ≠ ':') = ':' :: b := by
  induction a with
  | nil => simp [List.dropWhile]
  | cons x xs ih =>
    have hx : x ≠ ':' := by
      intro hc
      exact h (by simp [hc])
    have hxs : (':' : Char) ∉ xs := fun hc => h (by simp [hc])
    rw [List.cons_append, List.dropWhile_cons, if_pos (by simp [hx]), ih hxs]

/-- Claim C4: the returned meta description never exceeds 160 characters,
and when the stripped backend text exceeds 160 characters the result is
exactly 160 characters and ends in the three characters `...`. -/
theorem generate_meta_description_length (t r : String)
    (h : generate_meta_description (some t) = some r) :
    r.length ≤ 160 ∧
      ((pyStrip t).length > 160 →
        r.length = 160 ∧ ∃ p, r.data = p ++ "...".data) := by
  have hdata : ∀ l : List Char, (String.mk l).length = l.length := fun _ => rfl
  simp only [generate_meta_description] at h
  split at h
  · rename_i hgt
    have hr : r = ⟨(pyStrip t).data.take 157 ++ "...".data⟩ := (Option.some.inj h).symm
    subst hr
    have hglen : (pyStrip t).data.length > 160 := hgt
    have hlen : ((pyStrip t).data.take 157 ++ "...".data).length = 160 := by
      rw [List.length_append, List.length_take]
      simp
      omega
    exact ⟨by rw [hdata, hlen], fun _ =>
      ⟨by rw [hdata, hlen], ⟨(pyStrip t).data.take 157, rfl⟩⟩⟩
  · rename_i hle
    have hr : r = pyStrip t := (Option.some.inj h).symm
    subst hr
    exact ⟨by omega, fun hgt => absurd hgt hle⟩

set_option maxRecDepth 8192 in
theorem generate_meta_description_length_witness :
    (pyStrip (String.mk (List.replicate 200 'x'))).length > 160 ∧
      ∃ r, generate_meta_description (some (String.mk (List.replicate 200 'x'))) = some r ∧
        r.length = 160 ∧ ∃ p, r.data = p ++ "...".data := by
  refine ⟨by decide, ?_⟩
  obtain ⟨r, hr⟩ :
      ∃ r, generate_meta_description (some (String.mk (List.replicate 200 'x'))) = some r :=
    ⟨_, rfl⟩
  exact ⟨r, hr, ((generate_meta_description_length _ r hr).2 (by decide)).1,
    ((generate_meta_description_length _ r hr).2 (by decide)).2⟩

/-- Claim C9: `generate_keyword` returns `none` when the backend raises;
otherwise it returns the stripped response unchanged when it contains no
colon, and the stripped text after the first colon when it does. -/
theorem generate_keyword_spec (t : String) (a b : List Char) :
    generate_keyword none = none ∧
      ((':' : Char) ∉ (pyStrip t).data →
        generate_keyword (some t) = some (pyStrip t)) ∧
      ((pyStrip t).data = a ++ ':' :: b → (':' : Char) ∉ a →
        generate_keyword (some t) = some (pyStrip ⟨b⟩)) := by
  refine ⟨rfl, ?_, ?_⟩
  · intro hno
    have hin : ¬(pyIn ":" (pyStrip t) = true) := by
      rw [pyIn]
      show ¬(pyInL [':'] (pyStrip t).data = true)
      rw [pyInL_singleton]
      exact hno
    simp only [generate_keyword, if_neg hin]
  · intro hd hna
    have hin : pyIn ":" (pyStrip t) = true := by
      rw [pyIn]
      show pyInL [':'] (pyStrip t).data = true
      rw [pyInL_singleton, hd]
      simp
    simp only [generate_keyword, if_pos hin, hd, dropWhile_ne_colon a b hna]
    simp

set_option maxRecDepth 8192 in
theorem generate_keyword_spec_witness :
    generate_keyword (some " Keyword: vintage cameras ") = some "vintage cameras" := by
  have h := (generate_keyword_spec " Keyword: vintage cameras "
      "Keyword".data " vintage cameras".data).2.2 (by decide) (by decide)
  rw [h]
  decide

/-- Claim C10: `update_rank_math_keyword` writes a payload that sets
`focus_keyword` to the given keyword and maps every other key to the
value it had in the successfully-read existing bag. -/
theorem update_rank_math_keyword_frame (d : RMData) (kw k : String)
    (hk : k ≠ "focus_keyword") :
    (update_rank_math_keyword_payload (some d) kw).get "focus_keyword" = some kw ∧
      (update_rank_math_keyword_payload (some d) kw).get k = d.get k := by
  unfold update_rank_math_keyword_payload
  simp only [Option.getD]
  exact ⟨RMData.get_set_self d _ kw, RMData.get_set_ne d _ k kw hk⟩

theorem update_rank_math_keyword_frame_witness :
    (update_rank_math_keyword_payload (some [("description", "desc"), ("focus_keyword", "old")])
        "new").get "focus_keyword" = some "new" ∧
      (update_rank_math_keyword_payload (some [("description", "desc"), ("focus_keyword", "old")])
        "new").get "description" = some "desc" := by
  have h := update_rank_math_keyword_frame [("description", "desc"), ("focus_keyword", "old")]
    "new" "description" (by decide)
  exact ⟨h.1, by rw [h.2]; decide⟩

/-- Claim C5: `update_post_title` returns the title unchanged when the
keyword is already present case-insensitively (without calling the
backend), when the backend raises, and when the keyword is absent from
the stripped backend response; otherwise it returns the stripped
response.  Every result is the original title or contains the keyword
case-insensitively. -/
theorem update_post_title_spec (title keyword : String) (backend : Option String) :
    (pyIn (pyLower keyword) (pyLower title) = true →
      update_post_title title keyword backend = (title, false)) ∧
    ((update_post_title title keyword none).1 = title) ∧
    (∀ r, pyIn (pyLower keyword) (pyLower title) = false → backend = some r →
      pyIn (pyLower keyword) (pyLower (pyStrip r)) = false →
      update_post_title title keyword backend = (title, true)) ∧
    (∀ r, pyIn (pyLower keyword) (pyLower title) = false → backend = some r →
      pyIn (pyLower keyword) (pyLower (pyStrip r)) = true →
      update_post_title title keyword backend = (pyStrip r, true)) ∧
    ((update_post_title title keyword backend).1 = title ∨
      pyIn (pyLower keyword) (pyLower (update_post_title title keyword backend).1) = true) := by
  by_cases h1 : pyIn (pyLower keyword) (pyLower title) = true
  · refine ⟨fun _ => by simp only [update_post_title, if_pos h1], ?_, ?_, ?_, ?_⟩
    · simp only [update_post_title, if_pos h1]
    · intro r hfalse
      rw [h1] at hfalse
      exact absurd hfalse (by simp)
    · intro r hfalse
      rw [h1] at hfalse
      exact absurd hfalse (by simp)
    · left
      simp only [update_post_title, if_pos h1]
  · refine ⟨fun ht => absurd ht h1, ?_, ?_, ?_, ?_⟩
    · simp only [update_post_title, if_neg h1]
    · intro r _ hb hr
      subst hb
      simp only [update_post_title, if_neg h1]
      rw [if_pos (by simp [hr])]
    · intro r _ hb hr
      subst hb
      simp only [update_post_title, if_neg h1]
      rw [if_neg (by simp [hr])]
    · cases backend with
      | none => left; simp only [update_post_title, if_neg h1]
      | some resp =>
        by_cases hr : pyIn (pyLower keyword) (pyLower (pyStrip resp)) = true
        · right
          simp only [update_post_title, if_neg h1]
          rw [if_neg (by simp [hr])]
          exact hr
        · left
          have hrf : pyIn (pyLower keyword) (pyLower (pyStrip resp)) = false :=
            Bool.eq_false_iff.mpr hr
          simp only [update_post_title, if_neg h1]
          rw [if_pos (by simp [hrf])]

theorem update_post_title_spec_witness :
    update_post_title "My Great Post" "widgets" (some "My Great Widgets Post") =
        ("My Great Widgets Post", true) ∧
      update_post_title "My Great Post" "widgets" (some "Unrelated") = ("My Great Post", true) := by
  constructor
  · have h := (update_post_title_spec "My Great Post" "widgets"
      (some "My Great Widgets Post")).2.2.2.1 "My Great Widgets Post" (by decide) rfl (by decide)
    rw [h]
    decide
  · exact (update_post_title_spec "My Great Post" "widgets"
      (some "Unrelated")).2.2.1 "Unrelated" (by decide) rfl (by decide)

/-! ## Pagination claims -/

/-- Unrolling of the pagination loop across a run of full pages. -/
theorem get_all_full_pages {α : Type} (server : Nat → Except Nat (List α)) :
    ∀ (n fuel start : Nat),
      (∀ i, i < n → ∃ b, server (start + i) = .ok b ∧ b.length = 100) →
      n < fuel →
      get_all_published_posts server fuel start =
        pagesConcat server start n ++
          get_all_published_posts server (fuel - n) (start + n) := by
  intro n
  induction n with
  | zero =>
    intro fuel start _ _
    simp [pagesConcat]
  | succ m ih =>
    intro fuel start hfull hlt
    obtain ⟨b, hb, hblen⟩ := hfull 0 (Nat.succ_pos m)
    rw [Nat.add_zero] at hb
    cases fuel with
    | zero => omega
    | succ f =>
      rw [get_all_published_posts, hb]
      dsimp only
      have hne : ¬(b.isEmpty = true) := by
        intro hemp
        rw [List.isEmpty_iff] at hemp
        subst hemp
        simp at hblen
      rw [if_neg hne, if_neg (by omega)]
      rw [pagesConcat, hb, List.append_assoc]
      congr 1
      have harg : ∀ i, i < m → ∃ b2, server (start + 1 + i) = .ok b2 ∧ b2.length = 100 := by
        intro i hi
        have := hfull (i + 1) (by omega)
        rwa [show start + (i + 1) = start + 1 + i by omega] at this
      rw [ih f (start + 1) harg (by omega),
        show f + 1 - (m + 1) = f - m by omega,
        show start + (m + 1) = start + 1 + m by omega]

theorem pagesConcat_congr {α : Type} (s1 s2 : Nat → Except Nat (List α)) :
    ∀ (n start : Nat), (∀ p, start ≤ p → p < start + n → s1 p = s2 p) →
      pagesConcat s1 start n = pagesConcat s2 start n := by
  intro n
  induction n with
  | zero => intro start _; rfl
  | succ m ih =>
    intro start hag
    rw [pagesConcat, pagesConcat, hag start (by omega) (by omega)]
    rw [ih (start + 1) (fun p h1 h2 => hag p (by omega) (by omega))]

/-- Claim C7: pagination requests pages of a fixed size 100; a non-200
response for page `k` after full pages `1..k-1` stops the loop without
raising and yields exactly the posts of the earlier pages; an empty page
also stops with the earlier posts; a partial page stops after including
it, and the result does not depend on the server beyond page `k`. -/
theorem get_all_published_posts_pagination {α : Type}
    (server server2 : Nat → Except Nat (List α)) (k fuel : Nat)
    (hk : 1 ≤ k) (hfuel : k < fuel)
    (hfull : ∀ p, 1 ≤ p → p < k → ∃ b, server p = .ok b ∧ b.length = 100) :
    (∀ e, server k = .error e →
      fetchAllPublished server fuel = pagesConcat server 1 (k - 1)) ∧
    (server k = .ok [] →
      fetchAllPublished server fuel = pagesConcat server 1 (k - 1)) ∧
    (∀ b, server k = .ok b → b ≠ [] → b.length < 100 →
      fetchAllPublished server fuel = pagesConcat server 1 (k - 1) ++ b ∧
      ((∀ p, p ≤ k → server2 p = server p) →
        fetchAllPublished server2 fuel = fetchAllPublished server fuel)) := by
  have hsplit : ∀ (s : Nat → Except Nat (List α)),
      (∀ p, 1 ≤ p → p < k → ∃ b, s p = .ok b ∧ b.length = 100) →
      get_all_published_posts s fuel 1 =
        pagesConcat s 1 (k - 1) ++ get_all_published_posts s (fuel - (k - 1)) k := by
    intro s hf
    have h := get_all_full_pages s (k - 1) fuel 1
      (fun i hi => by
        have := hf (1 + i) (by omega) (by omega)
        exact this)
      (by omega)
    rwa [show 1 + (k - 1) = k by omega] at h
  obtain ⟨f2, hf2⟩ : ∃ f2, fuel - (k - 1) = f2 + 1 := ⟨fuel - (k - 1) - 1, by omega⟩
  refine ⟨?_, ?_, ?_⟩
  · intro e he
    rw [fetchAllPublished, hsplit server hfull, hf2, get_all_published_posts, he,
      List.append_nil]
  · intro he
    rw [fetchAllPublished, hsplit server hfull, hf2, get_all_published_posts, he]
    simp
  · intro b hb hbne hblt
    have hmain : fetchAllPublished server fuel = pagesConcat server 1 (k - 1) ++ b := by
      rw [fetchAllPublished, hsplit server hfull, hf2, get_all_published_posts, hb]
      dsimp only
      rw [if_neg (by simp [List.isEmpty_iff, hbne]), if_pos hblt]
    refine ⟨hmain, fun hag => ?_⟩
    have hfull2 : ∀ p, 1 ≤ p → p < k → ∃ b2, server2 p = .ok b2 ∧ b2.length = 100 := by
      intro p h1 h2
      rw [hag p (by omega)]
      exact hfull p h1 h2
    have hmain2 : fetchAllPublished server2 fuel = pagesConcat server2 1 (k - 1) ++ b := by
      rw [fetchAllPublished, hsplit server2 hfull2, hf2, get_all_published_posts,
        hag k (by omega), hb]
      dsimp only
      rw [if_neg (by simp [List.isEmpty_iff, hbne]), if_pos hblt]
    rw [hmain, hmain2]
    rw [pagesConcat_congr server2 server (k - 1) 1
      (fun p h1 h2 => hag p (by omega))]

theorem get_all_published_posts_pagination_witness :
    fetchAllPublished
        (fun p => if p = 1 then Except.ok (List.replicate 100 0) else Except.error 404) 3 =
      pagesConcat
        (fun p => if p = 1 then Except.ok (List.replicate 100 0) else Except.error 404) 1 1 := by
  have hfull : ∀ p, 1 ≤ p → p < 2 →
      ∃ b, (fun p => if p = 1 then Except.ok (List.replicate 100 (0 : Nat))
        else Except.error 404) p = .ok b ∧ b.length = 100 := by
    intro p h1 h2
    have hp : p = 1 := by omega
    subst hp
    exact ⟨List.replicate 100 0, rfl, by simp⟩
  exact (get_all_published_posts_pagination
    (fun p => if p = 1 then Except.ok (List.replicate 100 0) else Except.error 404)
    (fun p => if p = 1 then Except.ok (List.replicate 100 0) else Except.error 404)
    2 3 (by omega) (by omega) hfull).1 404 rfl

/-! ## First-paragraph claims -/

/-- Soundness of `splitFirst`: a hit decomposes the list. -/
theorem splitFirst_sound (pat : List Char) :
    ∀ (l pre post : List Char), splitFirst pat l = some (pre, post) →
      l = pre ++ pat ++ post := by
  intro l
  induction l with
  | nil =>
    intro pre post h
    rw [splitFirst] at h
    split at h
    · rename_i hp
      obtain ⟨t, ht⟩ := (isPrefixOf_iff_append pat []).mp hp
      have hpat : pat = [] := by
        have := ht.symm
        simp only [List.append_eq_nil] at this
        exact this.1
      injection h with h2
      injection h2 with hpre hpost
      subst hpre
      subst hpost
      simp [hpat]
    · exact absurd h (by simp)
  | cons c rest ih =>
    intro pre post h
    rw [splitFirst] at h
    split at h
    · rename_i hp
      obtain ⟨t, ht⟩ := (isPrefixOf_iff_append pat (c :: rest)).mp hp
      injection h with h2
      injection h2 with hpre hpost
      subst hpre
      subst hpost
      rw [List.nil_append, ht, List.drop_left' rfl]
    · rename_i hp
      revert h
      split
      · rename_i pre2 post2 hrec
        intro h
        injection h with h2
        injection h2 with hpre hpost
        subst hpre
        subst hpost
        have hr2 := ih pre2 post2 hrec
        simp [hr2]
      · intro h
        exact absurd h (by simp)

theorem splitFirst_complete (pat : List Char) :
    ∀ (a b l : List Char), l = a ++ pat ++ b → (splitFirst pat l).isSome := by
  intro a
  induction a with
  | nil =>
    intro b l h
    have hp : pat.isPrefixOf l = true :=
      (isPrefixOf_iff_append pat l).mpr ⟨b, by simpa using h⟩
    cases l with
    | nil => rw [splitFirst, if_pos hp]; rfl
    | cons c rest => rw [splitFirst, if_pos hp]; rfl
  | cons x xs ih =>
    intro b l h
    cases l with
    | nil => simp at h
    | cons c rest =>
      rw [List.cons_append, List.cons_append] at h
      injection h with hc hrest
      rw [splitFirst]
      split
      · rfl
      · have hrec := ih b rest hrest
        cases hsf : splitFirst pat rest with
        | none =>
          rw [hsf] at hrec
          simp at hrec
        | some pr =>
          obtain ⟨pre2, post2⟩ := pr
          rfl

/-- Every successful paragraph match yields a decomposition of the
content around a `<p>...</p>` block. -/
theorem findFirstPara_decomp (content : List Char) (para : List Char)
    (hf : findFirstPara content = some para) :
    ∃ a b, content = a ++ "<p>".data ++ para ++ "</p>".data ++ b := by
  rw [findFirstPara] at hf
  cases h1 : splitFirst "<p>".data content with
  | none =>
    rw [h1] at hf
    simp at hf
  | some pr =>
    obtain ⟨pre, post⟩ := pr
    rw [h1] at hf
    dsimp only at hf
    cases h2 : splitFirst "</p>".data post with
    | none =>
      rw [h2] at hf
      simp at hf
    | some pr2 =>
      obtain ⟨para2, post2⟩ := pr2
      rw [h2] at hf
      simp only [Option.some.injEq] at hf
      subst hf
      have e1 := splitFirst_sound "<p>".data content pre post h1
      have e2 := splitFirst_sound "</p>".data post para2 post2 h2
      exact ⟨pre, post2, by rw [e1, e2]; simp⟩

/-- Claim C6: `update_first_paragraph` returns the content unchanged,
byte for byte, when no `<p>...</p>` block occurs in it, when the keyword
already occurs case-insensitively in the first paragraph's tag-stripped
text, and when the backend call raises. -/
theorem update_first_paragraph_unchanged (content keyword : String) (backend : Option String) :
    ((∀ a m b : List Char, content.data ≠ a ++ "<p>".data ++ m ++ "</p>".data ++ b) →
      update_first_paragraph content keyword backend = content) ∧
    (∀ para, findFirstPara content.data = some para →
      pyIn (pyLower keyword) (pyLower ⟨stripTags para⟩) = true →
      update_first_paragraph content keyword backend = content) ∧
    (update_first_paragraph content keyword none = content) := by
  refine ⟨?_, ?_, ?_⟩
  · intro h
    cases hf : findFirstPara content.data with
    | none => rw [update_first_paragraph, hf]
    | some para =>
      obtain ⟨a, b2, hd⟩ := findFirstPara_decomp content.data para hf
      exact absurd hd (h a para b2)
  · intro para hf hkw
    rw [update_first_paragraph, hf]
    simp only [if_pos hkw]
  · cases hf : findFirstPara content.data with
    | none => rw [update_first_paragraph, hf]
    | some para =>
      rw [update_first_paragraph, hf]
      by_cases hkw : pyIn (pyLower keyword) (pyLower ⟨stripTags para⟩) = true
      · simp only [if_pos hkw]
      · simp only [if_neg hkw]

theorem update_first_paragraph_unchanged_witness :
    update_first_paragraph "hello world" "kw" (some "resp") = "hello world" ∧
      update_first_paragraph "<p>the kw is here</p>tail" "KW" (some "resp") =
        "<p>the kw is here</p>tail" := by
  constructor
  · refine (update_first_paragraph_unchanged "hello world" "kw" (some "resp")).1 ?_
    intro a m b heq
    have hsome := splitFirst_complete "<p>".data a (m ++ "</p>".data ++ b)
      "hello world".data (by rw [heq]; simp)
    rw [show splitFirst "<p>".data "hello world".data = none from by decide] at hsome
    simp at hsome
  · exact (update_first_paragraph_unchanged "<p>the kw is here</p>tail" "KW"
      (some "resp")).2.1 "the kw is here".data (by decide) (by decide)

/-! ## Post-workflow claims -/

/-- A true `meta_description_exists` comes with a non-empty description. -/
theorem readExistingMeta_md_ne (y : Option String) (rmd : Option RMData)
    (m : String) (k : Option String) (ke : Bool)
    (h : readExistingMeta y rmd = (some m, true, k, ke)) : m ≠ "" := by
  rw [readExistingMeta.eq_def] at h
  cases y <;> cases rmd <;> dsimp only at h
  · simp at h
  · split at h
    · simp at h
    · split at h
      · simp only [Prod.mk.injEq, Option.some.injEq] at h
        obtain ⟨h1, h2, -⟩ := h
        subst h1
        simpa using h2
      · simp at h
  · simp only [Prod.mk.injEq, Option.some.injEq] at h
    obtain ⟨h1, h2, -⟩ := h
    subst h1
    simpa using h2
  · split at h
    · simp only [Prod.mk.injEq, Option.some.injEq] at h
      obtain ⟨h1, h2, -⟩ := h
      subst h1
      simpa using h2
    · split at h
      · simp only [Prod.mk.injEq, Option.some.injEq] at h
        obtain ⟨h1, h2, -⟩ := h
        subst h1
        simpa using h2
      · simp only [Prod.mk.injEq, Option.some.injEq] at h
        obtain ⟨h1, h2, -⟩ := h
        subst h1
        simpa using h2

theorem readExistingMeta_kw_ne (y : Option String) (rmd : Option RMData)
    (md : Option String) (e : Bool) (kw : String)
    (h : readExistingMeta y rmd = (md, e, some kw, true)) : kw ≠ "" := by
  rw [readExistingMeta.eq_def] at h
  cases y <;> cases rmd <;> dsimp only at h
  · simp at h
  · split at h
    · simp at h
    · simp only [Prod.mk.injEq, Option.some.injEq] at h
      obtain ⟨-, -, h1, h2⟩ := h
      subst h1
      simpa using h2
  · simp at h
  · split at h
    · simp at h
    · simp only [Prod.mk.injEq, Option.some.injEq] at h
      obtain ⟨-, -, h1, h2⟩ := h
      subst h1
      simpa using h2

theorem title_phase_ok (post : Post) (env : Env) (s : PState) (h0 : env.raiseAt = none) :
    ∃ s', title_phase post env s = .ok s' ∧ s'.md = s.md ∧ s'.mde = s.mde ∧
      s'.kw = s.kw ∧ s'.kwe = s.kwe ∧
      s'.report.meta_description_added = s.report.meta_description_added ∧
      s'.report.keyword_added = s.report.keyword_added ∧
      s'.report.post_id = s.report.post_id := by
  rw [title_phase]
  split
  · rw [h0, if_neg (by simp)]
    dsimp only
    split
    · exact ⟨_, rfl, rfl, rfl, rfl, rfl, rfl, rfl, rfl⟩
    · exact ⟨s, rfl, rfl, rfl, rfl, rfl, rfl, rfl, rfl⟩
  · exact ⟨s, rfl, rfl, rfl, rfl, rfl, rfl, rfl, rfl⟩

theorem content_meta_phase_ok (post : Post) (env : Env) (rmd : Option RMData) (s : PState)
    (h0 : env.raiseAt = none) :
    ∃ s' ud, content_meta_phase post env rmd s = .ok (s', ud) ∧ s'.report = s.report := by
  rw [content_meta_phase]
  by_cases h5 : (s.kwe && !(pyIn (pyLower (s.kw.getD "")) (pyLower post.content_rendered))) = true
  · rw [if_pos h5, h0, if_neg (by simp)]
    dsimp only
    by_cases hc : update_first_paragraph post.content_rendered (s.kw.getD "") env.paraBackend ≠
        post.content_rendered
    · rw [if_pos hc]
      dsimp only
      by_cases hm : pyTruthy s.md = true
      · rw [if_pos hm]
        exact ⟨_, _, rfl, rfl⟩
      · rw [if_neg hm]
        exact ⟨_, _, rfl, rfl⟩
    · rw [if_neg hc]
      dsimp only
      by_cases hm : pyTruthy s.md = true
      · rw [if_pos hm]
        exact ⟨_, _, rfl, rfl⟩
      · rw [if_neg hm]
        exact ⟨_, _, rfl, rfl⟩
  · rw [if_neg h5]
    by_cases hm : pyTruthy s.md = true
    · rw [if_pos hm]
      exact ⟨_, _, rfl, rfl⟩
    · rw [if_neg hm]
      exact ⟨_, _, rfl, rfl⟩

/-- Claim C2: when a description and a keyword both exist, the
description is regenerated exactly when the raw (not lower-cased)
keyword is not a substring of the lower-cased existing description;
consequently a keyword containing an ASCII uppercase letter always
triggers regeneration. -/
theorem process_post_regen_iff (post : Post) (env : Env) (md kw m : String)
    (h0 : env.raiseAt = none)
    (h1 : readExistingMeta post.yoastDesc env.rmdRead = (some md, true, some kw, true))
    (hgen : generate_meta_description env.descBackend = some m) (hm : m ≠ "") :
    ((process_post post env).1.meta_description_added = true ↔
      pyIn kw (pyLower md) = false) ∧
    ((∃ c ∈ kw.data, pyIsUpper c = true) →
      (process_post post env).1.meta_description_added = true) := by
  have hglue : ∀ s2 : PState,
      description_phase post env
        ⟨some md, true, some kw, true,
          ⟨post.id, post.slug, post.title_rendered, none, false, false⟩, []⟩ = .ok s2 →
      (process_post post env).1.meta_description_added = s2.report.meta_description_added := by
    intro s2 hd
    obtain ⟨s3, ht, -, -, -, -, hmda3, -, -⟩ := title_phase_ok post env s2 h0
    obtain ⟨s4, ud, hc, hrep4⟩ := content_meta_phase_ok post env env.rmdRead s3 h0
    have hk : keyword_phase post env
        ⟨some md, true, some kw, true,
          ⟨post.id, post.slug, post.title_rendered, none, false, false⟩, []⟩ =
        .ok ⟨some md, true, some kw, true,
          ⟨post.id, post.slug, post.title_rendered, none, false, false⟩, []⟩ := rfl
    rw [process_post, process_post_body, h0, if_neg (by simp)]
    dsimp only
    rw [h1]
    dsimp only
    rw [hk]
    dsimp only
    rw [hd]
    dsimp only
    rw [ht]
    dsimp only
    rw [hc]
    dsimp only
    rw [hrep4, hmda3]
  by_cases hcont : pyIn kw (pyLower md) = true
  · have hd : description_phase post env
        ⟨some md, true, some kw, true,
          ⟨post.id, post.slug, post.title_rendered, none, false, false⟩, []⟩ =
        .ok ⟨some md, true, some kw, true,
          ⟨post.id, post.slug, post.title_rendered, none, false, false⟩, []⟩ := by
      rw [description_phase, if_neg (by simp), if_neg (by simp [hcont])]
    rw [hglue _ hd]
    constructor
    · constructor
      · intro hfalse
        simp at hfalse
      · intro hpy
        rw [hcont] at hpy
        simp at hpy
    · intro hup
      exfalso
      obtain ⟨c, hcmem, hcup⟩ := hup
      have hcmem2 := pyIn_mem hcont c hcmem
      have hnup := pyLower_no_upper md c hcmem2
      rw [hcup] at hnup
      simp at hnup
  · have hcf : pyIn kw (pyLower md) = false := Bool.eq_false_iff.mpr hcont
    have hd : ∃ s2, description_phase post env
        ⟨some md, true, some kw, true,
          ⟨post.id, post.slug, post.title_rendered, none, false, false⟩, []⟩ = .ok s2 ∧
        s2.report.meta_description_added = true := by
      rw [description_phase, if_neg (by simp), if_pos (by simp [hcf]), h0, if_neg (by simp),
        hgen, if_pos (by simp [pyTruthy, hm])]
      exact ⟨_, rfl, rfl⟩
    obtain ⟨s2, hd2, hadded⟩ := hd
    rw [hglue s2 hd2, hadded]
    exact ⟨by simp [hcf], fun _ => rfl⟩

/-- A post satisfying every presence check of claim C1: description via
schema A, keyword via schema B, keyword contained in the lower-cased
description, in the title and in the body. -/
def c1Post : Post :=
  ⟨7, "My widgets", "widgets are great", "my-widgets", some "all about widgets"⟩

/-- The environment for `c1Post`: the metadata read succeeds and no call
raises; no generation backend is consulted. -/
def c1Env : Env :=
  ⟨none, "", some [("focus_keyword", "widgets")], none, none, none, none, none, none, some 200⟩

/-- Claim C1 counterexample: a post whose keyword and description satisfy
every presence check still produces a non-empty update payload — the
existing description is re-written into the schema-B bag, so a meta
write request is issued. -/
theorem process_post_c1_counterexample :
    readExistingMeta c1Post.yoastDesc c1Env.rmdRead =
      (some "all about widgets", true, some "widgets", true) ∧
    pyIn "widgets" (pyLower "all about widgets") = true ∧
    pyIn (pyLower "widgets") (pyLower c1Post.title_rendered) = true ∧
    pyIn (pyLower "widgets") (pyLower c1Post.content_rendered) = true ∧
    c1Env.raiseAt = none ∧
    (process_post c1Post c1Env).2.1 ≠ UpdateData.empty ∧
    (process_post c1Post c1Env).2.1.meta =
      some [("focus_keyword", "widgets"), ("description", "all about widgets")] := by
  refine ⟨?_, ?_, ?_, ?_, ?_, ?_, ?_⟩ <;> decide

/-- Claim C1 amended: under all of C1's presence checks the payload
carries no title and no content update, but it is not empty — its only
entry re-writes the existing description into the schema-B bag, and that
meta write request is issued. -/
theorem process_post_idempotent_amended (post : Post) (env : Env) (md kw : String)
    (h0 : env.raiseAt = none)
    (h1 : readExistingMeta post.yoastDesc env.rmdRead = (some md, true, some kw, true))
    (h2 : pyIn kw (pyLower md) = true)
    (h3 : pyIn (pyLower kw) (pyLower post.title_rendered) = true)
    (h4 : pyIn (pyLower kw) (pyLower post.content_rendered) = true) :
    (process_post post env).2.1 =
      ⟨none, none, some ((rmdBag env.rmdRead).set "description" md)⟩ := by
  have hmd := readExistingMeta_md_ne post.yoastDesc env.rmdRead md (some kw) true h1
  have hk : keyword_phase post env
      ⟨some md, true, some kw, true,
        ⟨post.id, post.slug, post.title_rendered, none, false, false⟩, []⟩ =
      .ok ⟨some md, true, some kw, true,
        ⟨post.id, post.slug, post.title_rendered, none, false, false⟩, []⟩ := rfl
  have hd : description_phase post env
      ⟨some md, true, some kw, true,
        ⟨post.id, post.slug, post.title_rendered, none, false, false⟩, []⟩ =
      .ok ⟨some md, true, some kw, true,
        ⟨post.id, post.slug, post.title_rendered, none, false, false⟩, []⟩ := by
    rw [description_phase, if_neg (by simp), if_neg (by simp [h2])]
  have ht : title_phase post env
      ⟨some md, true, some kw, true,
        ⟨post.id, post.slug, post.title_rendered, none, false, false⟩, []⟩ =
      .ok ⟨some md, true, some kw, true,
        ⟨post.id, post.slug, post.title_rendered, none, false, false⟩, []⟩ := by
    rw [title_phase, if_neg (by simp [h3])]
  have hc : content_meta_phase post env env.rmdRead
      ⟨some md, true, some kw, true,
        ⟨post.id, post.slug, post.title_rendered, none, false, false⟩, []⟩ =
      .ok (⟨some md, true, some kw, true,
            ⟨post.id, post.slug, post.title_rendered, none, false, false⟩, []⟩,
          ⟨none, none, some ((rmdBag env.rmdRead).set "description" md)⟩) := by
    rw [content_meta_phase, if_neg (by simp [h4])]
    dsimp only
    rw [if_pos (by simp [pyTruthy, hmd])]
    simp [pyTruthy, UpdateData.empty]
  rw [process_post, process_post_body, h0, if_neg (by simp)]
  dsimp only
  rw [h1]
  dsimp only
  rw [hk]
  dsimp only
  rw [hd]
  dsimp only
  rw [ht]
  dsimp only
  rw [hc]

theorem process_post_idempotent_amended_witness :
    (process_post c1Post c1Env).2.1 =
      ⟨none, none, some ((rmdBag c1Env.rmdRead).set "description" "all about widgets")⟩ := by
  exact process_post_idempotent_amended c1Post c1Env "all about widgets" "widgets"
    (by decide) (by decide) (by decide) (by decide) (by decide)

/-- Claim C3: when both the Yoast and the Rank Math descriptions are
present and non-empty, the Yoast value is taken as the existing
description, and the reader's whole output is invariant under replacing
the Rank Math description value — schema B is not consulted for
description presence. -/
theorem readExistingMeta_schemaA_precedence (y r r' : String) (d : RMData)
    (hy : y ≠ "") (hd : d.get "description" = some r) (hr : r ≠ "") (hne : d ≠ []) :
    (readExistingMeta (some y) (some d)).1 = some y ∧
    (readExistingMeta (some y) (some d)).2.1 = true ∧
    readExistingMeta (some y) (some (d.set "description" r')) =
      readExistingMeta (some y) (some d) := by
  have hyt : (y != "") = true := bne_iff_ne.mpr hy
  have hcompute : ∀ (e : RMData), e.isEmpty = false →
      readExistingMeta (some y) (some e) =
        (some y, true, some ((e.get "focus_keyword").getD ""),
          ((e.get "focus_keyword").getD "") != "") := by
    intro e he
    rw [readExistingMeta.eq_def]
    dsimp only
    rw [hyt, if_neg (by simp [he])]
    simp
  have hdset : (d.set "description" r').isEmpty = false := by
    cases d with
    | nil => exact absurd rfl hne
    | cons p rest =>
      rw [RMData.set]
      split <;> rfl
  have h1 := hcompute d (by simp [List.isEmpty_iff, hne])
  have h2 := hcompute (d.set "description" r') hdset
  refine ⟨by rw [h1], by rw [h1], ?_⟩
  rw [h1, h2, RMData.get_set_ne d "description" "focus_keyword" r' (by decide)]

theorem readExistingMeta_schemaA_precedence_witness :
    (readExistingMeta (some "from yoast")
        (some [("description", "from rm"), ("focus_keyword", "kw")])).1 = some "from yoast" ∧
      readExistingMeta (some "from yoast")
          (some (RMData.set [("description", "from rm"), ("focus_keyword", "kw")]
            "description" "changed")) =
        readExistingMeta (some "from yoast")
          (some [("description", "from rm"), ("focus_keyword", "kw")]) := by
  have h := readExistingMeta_schemaA_precedence "from yoast" "from rm" "changed"
    [("description", "from rm"), ("focus_keyword", "kw")]
    (by decide) (by decide) (by decide) (by decide)
  exact ⟨h.1, h.2.2⟩

/-- Claim C8: an exception raised at any step of the body is caught by
`process_post`, which logs it against the post identifier and returns
normally with the report accumulated so far; the run loop therefore
yields one report entry per post, so one failure never aborts the run. -/
theorem process_post_catches (posts : List Post) (envf : Post → Env)
    (post : Post) (env : Env) :
    (runAll posts envf).length = posts.length ∧
    (∀ rep logs e, process_post_body post env = .error (rep, logs, e) →
      process_post post env =
        (rep, UpdateData.empty, logs ++ [⟨post.id, "Error processing post: " ++ e⟩]) ∧
      ∃ l ∈ (process_post post env).2.2, l.pid = post.id ∧
        l.msg = "Error processing post: " ++ e) := by
  constructor
  · simp [runAll]
  · intro rep logs e herr
    have hpp : process_post post env =
        (rep, UpdateData.empty, logs ++ [⟨post.id, "Error processing post: " ++ e⟩]) := by
      rw [process_post, herr]
    refine ⟨hpp, ⟨post.id, "Error processing post: " ++ e⟩, ?_, rfl, rfl⟩
    rw [hpp]
    simp

/-- The environment whose very first step raises. -/
def c8Env : Env := ⟨some 0, "boom", none, none, none, none, none, none, none, none⟩

theorem process_post_catches_witness :
    process_post ⟨1, "t", "c", "s", none⟩ c8Env =
      (⟨1, "s", "t", none, false, false⟩, UpdateData.empty,
        [⟨1, "Error processing post: boom"⟩]) := by
  have h := ((process_post_catches [] (fun _ => c8Env) ⟨1, "t", "c", "s", none⟩ c8Env).2
    ⟨1, "s", "t", none, false, false⟩ [] "boom" rfl).1
  simpa using h

/-- A post whose existing description misses the upper-case keyword. -/
def c2Post : Post := ⟨3, "some title", "some content", "slug", some "all about dogs"⟩

/-- Environment for `c2Post`: Rank Math supplies the keyword `Dogs` and
the backend supplies a fresh description. -/
def c2Env : Env :=
  ⟨none, "", some [("focus_keyword", "Dogs")], none, none, none,
    some "A fine description about Dogs.", none, none, some 200⟩

theorem process_post_regen_iff_witness :
    (process_post c2Post c2Env).1.meta_description_added = true := by
  exact (process_post_regen_iff c2Post c2Env "all about dogs" "Dogs"
    "A fine description about Dogs." (by decide) (by decide) (by decide) (by decide)).2
    ⟨'D', by decide, by decide⟩
